import Mathlib

/-!
Shallow embedding of the church-attendance roster application (src/index.tsx)
and proofs about its validator, roster store and view projector.

Conventions of the embedding:
* JavaScript numbers that the program uses as member ids are modelled as `Int`
  (the program only ever produces and compares integral ids).
* A JavaScript object is modelled as an association list of fields in insertion
  order; property access, property update via spread, and `delete` are modelled
  by `getField`, `setField` and `removeField`.
* The Korean locale collation (`String.prototype.localeCompare(_, 'ko')`) is an
  external ICU collaborator; it is modelled as an explicit comparison parameter
  `le : String → String → Bool`, and `Array.prototype.sort` with that comparator
  is modelled by a stable comparison sort (`List.insertionSort`), which is the
  contract ECMAScript gives for `sort` with a consistent comparator.
-/

/-- The fixed twelve-role position enumeration (`POSITIONS` in the source). -/
def POSITIONS : List String :=
  ["목사", "부목사", "사모", "전도사", "장로", "권사", "집사", "성도", "청년", "학생", "주일학교", "기타"]

/-- The two attendance status strings (`ATTENDANCE_STATUSES` in the source). -/
def ATTENDANCE_STATUSES : List String := ["출석", "결석"]

/-- The "all" filter sentinel (`ALL_FILTER = '전체'` in the source). -/
def ALL_FILTER : String := "전체"

/-- Page size of the member table (`ITEMS_PER_PAGE` in the source). -/
def ITEMS_PER_PAGE : Nat := 15

/-- The typed attendance status (`type AttendanceStatus` in the source):
`present` is the string `'출석'`, `absent` is `'결석'`. -/
inductive AttendanceStatus where
  | present
  | absent
deriving DecidableEq, Repr

/-- The string a typed status denotes. -/
def statusString : AttendanceStatus → String
  | .present => "출석"
  | .absent => "결석"

/-- Parse an attendance status string. -/
def statusOfString (s : String) : Option AttendanceStatus :=
  if s = "출석" then some .present
  else if s = "결석" then some .absent
  else none

/-- The `Member` interface of the source. `attendance` is the
`Record<string, AttendanceStatus>` object, modelled as an association list of
date-string keys in insertion order. -/
structure Member where
  id : Int
  name : String
  position : String
  phone : String
  attendance : List (String × AttendanceStatus)
deriving DecidableEq, Repr

/-- `member.attendance[date]` as the status string, `none` for a missing key. -/
def statusAt (m : Member) (d : String) : Option String :=
  (m.attendance.lookup d).map statusString

/-! ### Decoded JSON values

`JSValue` models a value produced by `JSON.parse`: there is no `undefined`, and
object keys are unique (duplicates are already collapsed by the parser). -/

/-- A decoded JSON value (the input type of `validateImportedData` and the
shape of the persisted roster). -/
inductive JSValue where
  | null
  | bool (b : Bool)
  | num (n : Int)
  | str (s : String)
  | arr (elems : List JSValue)
  | obj (fields : List (String × JSValue))

/-- Property access `v[k]`; `none` models `undefined`. -/
def getField : JSValue → String → Option JSValue
  | .obj fields, k => fields.lookup k
  | _, _ => none

/-- Property update, as performed by object spread followed by assignment:
an existing key is overwritten in place, a new key is appended. -/
def setField (v : JSValue) (k : String) (x : JSValue) : JSValue :=
  match v with
  | .obj fields =>
      .obj (if fields.any (fun e => e.1 == k) then
              fields.map (fun e => if e.1 == k then (k, x) else e)
            else fields ++ [(k, x)])
  | other => other

/-- The `delete` operator on a property. -/
def removeField (v : JSValue) (k : String) : JSValue :=
  match v with
  | .obj fields => .obj (fields.filter fun e => e.1 != k)
  | other => other

/-- JavaScript truthiness of a decoded JSON value. -/
def truthy : JSValue → Bool
  | .null => false
  | .bool b => b
  | .num n => n != 0
  | .str s => !s.isEmpty
  | .arr _ => true
  | .obj _ => true

/-- `typeof v === 'object' && v !== null`: true exactly for objects and
arrays. -/
def isObjectLike : JSValue → Bool
  | .obj _ => true
  | .arr _ => true
  | _ => false

/-- The own enumerable string-keyed entries that a `for ... in` loop visits:
the fields of an object, the stringified indices of an array. -/
def entriesOf : JSValue → List (String × JSValue)
  | .obj fields => fields
  | .arr elems => elems.enum.map fun e => (toString e.1, e.2)
  | _ => []

/-- The date-key pattern of the source, `/^\d{4}-\d{2}-\d{2}$/`. -/
def isDateString (s : String) : Bool :=
  match s.toList with
  | [y1, y2, y3, y4, h1, m1, m2, h2, d1, d2] =>
      y1.isDigit && y2.isDigit && y3.isDigit && y4.isDigit && h1 == '-' &&
      m1.isDigit && m2.isDigit && h2 == '-' && d1.isDigit && d2.isDigit
  | _ => false

/-- `ATTENDANCE_STATUSES.includes(value)` (strict equality, so only the two
status strings qualify). -/
def isStatusValue : JSValue → Bool
  | .str s => ATTENDANCE_STATUSES.contains s
  | _ => false

/-! ### The schema validator (`validateImportedData`) -/

/-- The per-element defect found by the validator, before the 1-based element
index is attached to it. -/
inductive MemberError where
  | notObject
  | noId
  | noName
  | badPosition (value : Option JSValue)
  | noPhone
  | noAttendance
  | badEntry (name : String) (date : String) (value : JSValue)

/-- The validator's error taxonomy; indices are the 1-based indices reported in
the source's error messages. -/
inductive ValidationError where
  | emptyInput
  | notAnArray
  | elementNotObject (idx : Nat)
  | missingId (idx : Nat)
  | missingName (idx : Nat)
  | invalidPosition (idx : Nat) (value : Option JSValue)
  | missingPhone (idx : Nat)
  | missingAttendance (idx : Nat)
  | invalidAttendanceEntry (name : String) (date : String) (value : JSValue)

/-- Attach the reported 1-based element index to a per-element defect. -/
def attachIdx (idx : Nat) : MemberError → ValidationError
  | .notObject => .elementNotObject idx
  | .noId => .missingId idx
  | .noName => .missingName idx
  | .badPosition v => .invalidPosition idx v
  | .noPhone => .missingPhone idx
  | .noAttendance => .missingAttendance idx
  | .badEntry n d v => .invalidAttendanceEntry n d v

/-- The attendance-entry loop of the validator: each key must match the date
pattern and each value must be one of the two status strings; the first
offending entry is reported together with the member's name. -/
def checkEntries (name : String) : List (String × JSValue) → Option MemberError
  | [] => none
  | (d, v) :: rest =>
      if isDateString d && isStatusValue v then checkEntries name rest
      else some (.badEntry name d v)

/-- The per-element checks of `validateImportedData`, in source order:
object-likeness, numeric `id`, string `name`, `position` a string in
`POSITIONS`, string `phone`, object-like `attendance`, then the
attendance-entry loop. -/
def checkMember (member : JSValue) : Option MemberError :=
  if !isObjectLike member then some .notObject
  else match getField member "id" with
    | some (.num _) =>
        match getField member "name" with
        | some (.str nm) =>
            (match getField member "position" with
             | some (.str p) =>
                 if POSITIONS.contains p then
                   (match getField member "phone" with
                    | some (.str _) =>
                        (match getField member "attendance" with
                         | some att =>
                             if isObjectLike att then checkEntries nm (entriesOf att)
                             else some .noAttendance
                         | none => some .noAttendance)
                    | _ => some .noPhone)
                 else some (.badPosition (some (.str p)))
             | other => some (.badPosition other))
        | _ => some .noName
    | _ => some .noId

/-- The element loop of `validateImportedData`: elements are checked in order,
the first failing element aborts with its error (fail-fast), and on success the
raw elements are returned unchanged (`validatedMembers.push(member)`). -/
def validateLoop (i : Nat) : List JSValue → Except ValidationError (List JSValue)
  | [] => .ok []
  | m :: rest =>
      match checkMember m with
      | some e => .error (attachIdx (i + 1) e)
      | none => (validateLoop (i + 1) rest).map (m :: ·)

/-- `validateImportedData` of the source: `null` input is rejected as empty,
a non-array top level is rejected, otherwise the element loop runs. -/
def validateImportedData : JSValue → Except ValidationError (List JSValue)
  | .null => .error .emptyInput
  | .arr xs => validateLoop 0 xs
  | _ => .error .notAnArray

/-! ### Serialization and decoding of members -/

/-- The decoded-JSON shape `JSON.parse(JSON.stringify(m))` of a member, as
produced by `handleExportData` (which serializes the members array). -/
def memberToJS (m : Member) : JSValue :=
  .obj [("id", .num m.id), ("name", .str m.name), ("position", .str m.position),
        ("phone", .str m.phone),
        ("attendance", .obj (m.attendance.map fun e => (e.1, .str (statusString e.2))))]

/-- Read the entries of a raw attendance object back as typed entries. -/
def attendanceEntriesOfJS : List (String × JSValue) → Option (List (String × AttendanceStatus))
  | [] => some []
  | (k, v) :: rest =>
      match v with
      | .str s =>
          match statusOfString s, attendanceEntriesOfJS rest with
          | some st, some acc => some ((k, st) :: acc)
          | _, _ => none
      | _ => none

/-- Read a raw attendance object back into the typed attendance map. -/
def attendanceOfJS : JSValue → Option (List (String × AttendanceStatus))
  | .obj fields => attendanceEntriesOfJS fields
  | _ => none

/-- Read a validated raw element back as a typed `Member` (the source performs
this step with the cast `member as Member`). -/
def memberOfJS (v : JSValue) : Option Member :=
  match getField v "id", getField v "name", getField v "position",
        getField v "phone", getField v "attendance" with
  | some (.num i), some (.str n), some (.str p), some (.str ph), some att =>
      (attendanceOfJS att).map fun a => ⟨i, n, p, ph, a⟩
  | _, _, _, _, _ => none

/-! ### The roster store -/

/-- Sort a roster by name with the given collation, as
`members.sort((a, b) => a.name.localeCompare(b.name, 'ko'))`. -/
def sortByName (le : String → String → Bool) (ms : List Member) : List Member :=
  ms.insertionSort fun a b => le a.name b.name = true

/-- The id assigned by `handleAddMember`:
`(prevMembers.length > 0 ? Math.max(...prevMembers.map(m => m.id)) : 0) + 1`. -/
def nextId (ms : List Member) : Int :=
  (match ms.map Member.id with
   | [] => 0
   | x :: xs => xs.foldl max x) + 1

/-- The payload of the add-member form. -/
structure AddData where
  name : String
  position : String
  phone : String
deriving DecidableEq, Repr

/-- The member freshly constructed by `handleAddMember`. -/
def newMemberOf (data : AddData) (ms : List Member) : Member :=
  { id := nextId ms, name := data.name, position := data.position,
    phone := data.phone, attendance := [] }

/-- `handleAddMember`: append the new member and re-sort by collated name. -/
def handleAddMember (le : String → String → Bool) (data : AddData)
    (ms : List Member) : List Member :=
  sortByName le (ms ++ [newMemberOf data ms])

/-- The payload of the edit-member form (`Omit<Member, 'attendance'>`). -/
structure EditData where
  id : Int
  name : String
  position : String
  phone : String
deriving DecidableEq, Repr

/-- `handleSaveMember`: `prevMembers.map(m => m.id === d.id ? { ...m, ...d } : m)`.
The spread keeps `attendance` from the existing member and overwrites the four
other fields; no re-sort happens. -/
def handleSaveMember (d : EditData) (ms : List Member) : List Member :=
  ms.map fun m =>
    if m.id == d.id then
      { id := d.id, name := d.name, position := d.position, phone := d.phone,
        attendance := m.attendance }
    else m

/-- `handleDeleteMember` (after the confirmation dialog):
`prevMembers.filter(m => m.id !== id)`. -/
def handleDeleteMember (idToDelete : Int) (ms : List Member) : List Member :=
  ms.filter fun m => m.id != idToDelete

/-- Set or remove one key of an attendance object, as the body of
`handleAttendanceChange` does on the copied map. -/
def setAttendanceKey (att : List (String × AttendanceStatus)) (d : String) :
    Option AttendanceStatus → List (String × AttendanceStatus)
  | none => att.filter fun e => e.1 != d
  | some s =>
      if att.any (fun e => e.1 == d) then
        att.map fun e => if e.1 == d then (d, s) else e
      else att ++ [(d, s)]

/-- `handleAttendanceChange`: on the member with the given id, the `'미정'`
marker (modelled as `none`) deletes the date key and a concrete status sets it;
all other members are untouched. -/
def handleAttendanceChange (id : Int) (date : String)
    (newStatus : Option AttendanceStatus) (ms : List Member) : List Member :=
  ms.map fun m =>
    if m.id == id then { m with attendance := setAttendanceKey m.attendance date newStatus }
    else m

/-- Read every validated raw element back as a typed member. -/
def decodeMembers : List JSValue → Option (List Member)
  | [] => some []
  | v :: rest =>
      match memberOfJS v, decodeMembers rest with
      | some m, some acc => some (m :: acc)
      | _, _ => none

/-- The state update of `handleImportData` after a successful validation and
confirmation: the validated raw elements, read back as typed members, replace
the whole roster, re-sorted by collated name. `none` models the abort paths. -/
def handleImportData (le : String → String → Bool) (raw : JSValue) :
    Option (List Member) :=
  match validateImportedData raw with
  | .error _ => none
  | .ok vs => (decodeMembers vs).map (sortByName le)

/-! ### The legacy loader migration -/

/-- The per-record body of the migration loop:
`{ ...member, attendance: {} }`, then — only when `member.status` is truthy —
`attendance[today] = status`, and finally `delete newMember.status`. -/
def migrateRecord (today : String) (member : JSValue) : JSValue :=
  let withEmptyAtt := setField member "attendance" (.obj [])
  let withAtt :=
    match getField member "status" with
    | some v =>
        if truthy v then setField withEmptyAtt "attendance" (.obj [(today, v)])
        else withEmptyAtt
    | none => withEmptyAtt
  removeField withAtt "status"

/-- The migration block of the `members` state initializer: if the first parsed
record has a `status` property (`parsedMembers[0].status !== undefined`), every
record is rewritten by `migrateRecord`; when the first record has no `status`
property (or the list is empty) the list is returned unchanged. -/
def migrateMembers (today : String) (parsed : List JSValue) : List JSValue :=
  match parsed.head? with
  | some first =>
      if (getField first "status").isSome then parsed.map (migrateRecord today)
      else parsed
  | none => parsed

/-! ### The view projector -/

/-- `filteredMembers` of the source: position filter and status filter,
where a missing attendance key (`|| null`) matches no concrete status. -/
def filteredMembers (ms : List Member) (positionFilter statusFilter viewingDate : String) :
    List Member :=
  ms.filter fun member =>
    (positionFilter == ALL_FILTER || member.position == positionFilter) &&
    (statusFilter == ALL_FILTER || statusAt member viewingDate == some statusFilter)

/-- The result shape of `attendanceCounts`. -/
structure Counts where
  total : Nat
  present : Nat
  absent : Nat
deriving DecidableEq, Repr

/-- `attendanceCounts` of the source: scope by the position filter only, then
count members whose status at the viewing date is `'출석'` resp. `'결석'`. -/
def attendanceCounts (ms : List Member) (positionFilter viewingDate : String) : Counts :=
  let membersToCount := ms.filter fun member =>
    positionFilter == ALL_FILTER || member.position == positionFilter
  { total := membersToCount.length
    present := (membersToCount.filter fun m => statusAt m viewingDate == some "출석").length
    absent := (membersToCount.filter fun m => statusAt m viewingDate == some "결석").length }

/-- The slice `[(page-1)*size, page*size)` taken by `paginatedMembers`
(`filteredMembers.slice(startIndex, endIndex)`). -/
def paginate (filtered : List Member) (page size : Nat) : List Member :=
  (filtered.drop ((page - 1) * size)).take size

/-- `paginatedMembers` of the source: the slice at the fixed page size. -/
def paginatedMembers (filtered : List Member) (currentPage : Nat) : List Member :=
  paginate filtered currentPage ITEMS_PER_PAGE

/-- `totalPages` of the source, `Math.ceil(filteredMembers.length / ITEMS_PER_PAGE)`. -/
def totalPages (filtered : List Member) : Nat :=
  (filtered.length + ITEMS_PER_PAGE - 1) / ITEMS_PER_PAGE

/-! ### Per-member statistics (`MemberDetailModal`) -/

/-- `((present / total) * 100).toFixed(0)` guarded by `total > 0 ? ... : 0`,
modelled over exact rationals: `toFixed(0)` rounds to the nearest integer,
picking the larger integer on a tie, which for the nonnegative rational
`100·p/t` is `⌊(200·p + t) / (2·t)⌋`. -/
def ratePercent (present total : Nat) : Nat :=
  if 0 < total then (200 * present + total) / (2 * total) else 0

/-- The month (0-based, as `Date.prototype.getMonth` reports it) denoted by an
ISO `YYYY-MM-DD` date string; `none` models an invalid date. The source parses
the key with `new Date(date)` and reads `getMonth()`; this is modelled
structurally on the string (the deployment's clock and the parsed UTC date
agree on the calendar month). -/
def monthOfDateString (s : String) : Option Nat :=
  match s.toList with
  | [_, _, _, _, '-', m1, m2, '-', _, _] =>
      if m1.isDigit && m2.isDigit then
        let mv := (m1.toNat - 48) * 10 + (m2.toNat - 48)
        if 1 ≤ mv ∧ mv ≤ 12 then some (mv - 1) else none
      else none
  | _ => none

/-- The result shape of the `stats` memo of `MemberDetailModal`. -/
structure Stats where
  presentMonth : Nat
  totalMonth : Nat
  monthRate : Nat
  presentYear : Nat
  totalYear : Nat
  yearRate : Nat
deriving DecidableEq, Repr

/-- The `stats` computation of `MemberDetailModal` (the spec's `memberStats`):
year entries are those whose key starts with the year's decimal digits, month
entries additionally have the given 0-based month, and the rates are the
guarded `toFixed(0)` percentages. -/
def memberStats (m : Member) (year month : Nat) : Stats :=
  let yearAtt := m.attendance.filter fun e => e.1.startsWith (toString year)
  let monthAtt := yearAtt.filter fun e => monthOfDateString e.1 == some month
  let totalYear := yearAtt.length
  let presentYear := (yearAtt.filter fun e => statusString e.2 == "출석").length
  let totalMonth := monthAtt.length
  let presentMonth := (monthAtt.filter fun e => statusString e.2 == "출석").length
  { presentMonth := presentMonth
    totalMonth := totalMonth
    monthRate := ratePercent presentMonth totalMonth
    presentYear := presentYear
    totalYear := totalYear
    yearRate := ratePercent presentYear totalYear }

/-- A member the source's data model considers well-formed: the position is in
the twelve-role enumeration and the attendance object has date-pattern keys
(unique, as JavaScript object keys are). -/
def ValidMember (m : Member) : Prop :=
  m.position ∈ POSITIONS ∧ (∀ e ∈ m.attendance, isDateString e.1 = true) ∧
    (m.attendance.map Prod.fst).Nodup

/-- Lexicographic comparison of character lists by code point. -/
def strLeAux : List Char → List Char → Bool
  | [], _ => true
  | _ :: _, [] => false
  | c :: cs, d :: ds =>
      if c.toNat < d.toNat then true
      else if d.toNat < c.toNat then false
      else strLeAux cs ds

/-- A concrete total order on strings (code-point lexicographic), used to
instantiate the collation parameter in concrete evaluations. -/
def koLe (a b : String) : Bool := strLeAux a.toList b.toList

/-- A concrete sample member used to instantiate theorems at concrete inputs. -/
def sampleMember : Member :=
  { id := 1, name := "가", position := "성도", phone := "010-1111-2222",
    attendance := [("2024-01-07", .present)] }

/-- A second sample member with a different name and id. -/
def sampleMember2 : Member :=
  { id := 2, name := "나", position := "집사", phone := "010-3333-4444",
    attendance := [] }

/-- A schema-conforming raw element with id 1. -/
def dupA : JSValue :=
  .obj [("id", .num 1), ("name", .str "가"), ("position", .str "성도"),
        ("phone", .str "010-1111-2222"), ("attendance", .obj [])]

/-- A second schema-conforming raw element that reuses id 1. -/
def dupB : JSValue :=
  .obj [("id", .num 1), ("name", .str "나"), ("position", .str "집사"),
        ("phone", .str "010-3333-4444"), ("attendance", .obj [])]

/-- A decoded import payload that the validator accepts although two of its
elements carry the same id. -/
def dupIdRaw : JSValue := .arr [dupA, dupB]

/-- A decoded element whose `position` is not in the twelve-role enumeration
(the spec's own scenario input). -/
def badPosRaw : JSValue :=
  .obj [("id", .num 1), ("name", .str "Lee"), ("position", .str "알수없음"),
        ("phone", .str "010"), ("attendance", .obj [])]

/-- A persisted record without a legacy `status` field. -/
def legacyFirstNoStatus : JSValue :=
  .obj [("id", .num 1), ("name", .str "가"), ("position", .str "성도"),
        ("phone", .str "010-1111-2222"), ("attendance", .obj [])]

/-- A persisted record that exposes a scalar `status` field instead of an
`attendance` map. -/
def legacySecondWithStatus : JSValue :=
  .obj [("id", .num 2), ("name", .str "나"), ("position", .str "집사"),
        ("phone", .str "010-3333-4444"), ("status", .str "출석")]

/-! ## Helper lemmas -/

theorem ratePercent_eq_round (p t : Nat) (ht : t ≠ 0) :
    (ratePercent p t : ℤ) = round ((p : ℚ) / (t : ℚ) * 100) := by
  have ht' : 0 < t := Nat.pos_of_ne_zero ht
  have htq : (t : ℚ) ≠ 0 := by exact_mod_cast ht
  rw [round_eq]
  have h1 : (p : ℚ) / (t : ℚ) * 100 + 1 / 2 = ((200 * p + t : ℕ) : ℚ) / ((2 * t : ℕ) : ℚ) := by
    push_cast
    field_simp
    ring
  rw [h1, Rat.floor_natCast_div_natCast]
  simp only [ratePercent, ht', if_pos]
  exact_mod_cast rfl

theorem counts_aux (d : String) (ms : List Member) :
    ((ms.filter fun m => statusAt m d == some "출석").length +
        (ms.filter fun m => statusAt m d == some "결석").length ≤ ms.length) ∧
      ((ms.filter fun m => statusAt m d == some "출석").length +
          (ms.filter fun m => statusAt m d == some "결석").length = ms.length ↔
        ∀ m ∈ ms, (m.attendance.lookup d).isSome = true) := by
  induction ms with
  | nil => simp
  | cons m ms ih =>
    rcases ih with ⟨ih1, ih2⟩
    rcases hm : m.attendance.lookup d with _ | s
    · have h1 : (statusAt m d == some "출석") = false := by simp [statusAt, hm]
      have h2 : (statusAt m d == some "결석") = false := by simp [statusAt, hm]
      simp only [List.filter_cons, h1, h2, Bool.false_eq_true, if_false, List.length_cons]
      constructor
      · omega
      · constructor
        · omega
        · intro hall
          have := hall m (by simp)
          rw [hm] at this
          simp at this
    · have hforward : ∀ mm ∈ ms, mm ∈ m :: ms := by
        intro mm hmm; exact List.mem_cons_of_mem m hmm
      cases s
      · have h1 : (statusAt m d == some "출석") = true := by simp [statusAt, hm, statusString]
        have h2 : (statusAt m d == some "결석") = false := by simp [statusAt, hm, statusString]
        simp only [List.filter_cons, h1, h2, if_true, Bool.false_eq_true, if_false,
          List.length_cons]
        constructor
        · omega
        · constructor
          · intro heq
            intro mm hmm
            rcases List.mem_cons.mp hmm with h | h
            · subst h; rw [hm]; rfl
            · exact ih2.mp (by omega) mm h
          · intro hall
            have : ∀ mm ∈ ms, (mm.attendance.lookup d).isSome = true := by
              intro mm hmm; exact hall mm (List.mem_cons_of_mem m hmm)
            have := ih2.mpr this
            omega
      · have h1 : (statusAt m d == some "출석") = false := by simp [statusAt, hm, statusString]
        have h2 : (statusAt m d == some "결석") = true := by simp [statusAt, hm, statusString]
        simp only [List.filter_cons, h1, h2, if_true, Bool.false_eq_true, if_false,
          List.length_cons]
        constructor
        · omega
        · constructor
          · intro heq
            intro mm hmm
            rcases List.mem_cons.mp hmm with h | h
            · subst h; rw [hm]; rfl
            · exact ih2.mp (by omega) mm h
          · intro hall
            have : ∀ mm ∈ ms, (mm.attendance.lookup d).isSome = true := by
              intro mm hmm; exact hall mm (List.mem_cons_of_mem m hmm)
            have := ih2.mpr this
            omega

/-! ## Claim theorems -/

/-- C4: for every member, year and month, the stats computation returns
`monthRate = round(presentMonth/totalMonth*100)` and
`yearRate = round(presentYear/totalYear*100)` as integer percentages, and
returns the literal value 0 for a rate whose total is 0 (the computation is a
total function, so there is no division-by-zero failure). -/
theorem memberStats_rates (m : Member) (year month : Nat) :
    ((memberStats m year month).monthRate : ℤ) =
      (if (memberStats m year month).totalMonth = 0 then 0
       else round (((memberStats m year month).presentMonth : ℚ) /
          ((memberStats m year month).totalMonth : ℚ) * 100)) ∧
    ((memberStats m year month).yearRate : ℤ) =
      (if (memberStats m year month).totalYear = 0 then 0
       else round (((memberStats m year month).presentYear : ℚ) /
          ((memberStats m year month).totalYear : ℚ) * 100)) := by
  have hm : (memberStats m year month).monthRate =
      ratePercent (memberStats m year month).presentMonth
        (memberStats m year month).totalMonth := rfl
  have hy : (memberStats m year month).yearRate =
      ratePercent (memberStats m year month).presentYear
        (memberStats m year month).totalYear := rfl
  constructor
  · rw [hm]
    by_cases h : (memberStats m year month).totalMonth = 0
    · simp [h, ratePercent]
    · simp only [h, if_false]
      exact ratePercent_eq_round _ _ h
  · rw [hy]
    by_cases h : (memberStats m year month).totalYear = 0
    · simp [h, ratePercent]
    · simp only [h, if_false]
      exact ratePercent_eq_round _ _ h

/-- C5: with the position filter `'전체'`, the counts satisfy
`present + absent ≤ total`, with equality exactly when every member of the
roster has a defined attendance status for the viewing date. -/
theorem attendanceCounts_present_add_absent (ms : List Member) (d : String) :
    (attendanceCounts ms ALL_FILTER d).present + (attendanceCounts ms ALL_FILTER d).absent ≤
        (attendanceCounts ms ALL_FILTER d).total ∧
      ((attendanceCounts ms ALL_FILTER d).present + (attendanceCounts ms ALL_FILTER d).absent =
          (attendanceCounts ms ALL_FILTER d).total ↔
        ∀ m ∈ ms, (m.attendance.lookup d).isSome = true) := by
  have hfilter :
      (ms.filter fun member => ALL_FILTER == ALL_FILTER || member.position == ALL_FILTER) = ms := by
    simp
  simp only [attendanceCounts, hfilter]
  exact counts_aux d ms

/-- C6: the filtered view keeps exactly the members for which (the position
filter is `'전체'` or the member's position equals it) and (the status filter is
`'전체'` or the member's status at the viewing date equals it, a missing
attendance entry matching neither concrete status). -/
theorem filteredMembers_spec (ms : List Member) (pf sf d : String) :
    filteredMembers ms pf sf d =
      ms.filter fun m =>
        decide ((pf = ALL_FILTER ∨ m.position = pf) ∧
          (sf = ALL_FILTER ∨ statusAt m d = some sf)) := by
  unfold filteredMembers
  apply List.filter_congr
  intro m _
  rw [Bool.eq_iff_iff]
  simp

/-- C7: pagination returns at most `size` elements, and returns the empty list
for every page strictly beyond `⌈filtered.length / size⌉`. -/
theorem paginate_bounds (filtered : List Member) (page size : Nat)
    (_hpage : 1 ≤ page) (hsize : 0 < size) :
    (paginate filtered page size).length ≤ size ∧
      ((filtered.length + size - 1) / size < page → paginate filtered page size = []) := by
  constructor
  · simp [paginate]
  · intro h
    have h2 : filtered.length + size - 1 < page * size := (Nat.div_lt_iff_lt_mul hsize).mp h
    have h3 : (page - 1) * size = page * size - 1 * size := Nat.sub_mul page 1 size
    have h4 : filtered.length ≤ (page - 1) * size := by omega
    simp [paginate, List.drop_eq_nil_of_le h4]

/-- Witness for C7 at a concrete input: page 2 of a one-element list at page
size 15 is past the last page and comes back empty. -/
theorem paginate_bounds_witness :
    (1 ≤ 2 ∧ 0 < 15) ∧
      ((paginate [sampleMember] 2 15).length ≤ 15 ∧
        (([sampleMember].length + 15 - 1) / 15 < 2 →
          paginate [sampleMember] 2 15 = [])) :=
  ⟨by decide, paginate_bounds [sampleMember] 2 15 (by decide) (by decide)⟩

theorem foldl_max_mem (x : Int) (xs : List Int) : xs.foldl max x ∈ x :: xs := by
  induction xs generalizing x with
  | nil => simp
  | cons y ys ih =>
    have h := ih (max x y)
    rw [List.foldl_cons]
    rcases List.mem_cons.mp h with h1 | h1
    · rcases max_choice x y with hc | hc <;> rw [h1, hc]
      · simp
      · simp
    · simp only [List.mem_cons]
      right
      right
      exact h1

theorem le_foldl_max (x : Int) (xs : List Int) : ∀ a ∈ x :: xs, a ≤ xs.foldl max x := by
  induction xs generalizing x with
  | nil =>
    intro a ha
    simp at ha
    simp [ha]
  | cons y ys ih =>
    intro a ha
    rw [List.foldl_cons]
    rcases List.mem_cons.mp ha with rfl | ha'
    · exact le_trans (le_max_left a y) (ih (max a y) _ (by simp))
    · rcases List.mem_cons.mp ha' with rfl | ha''
      · exact le_trans (le_max_right x a) (ih (max x a) _ (by simp))
      · exact ih (max x y) a (List.mem_cons_of_mem _ ha'')

theorem maximum_eq_foldl (x : Int) (xs : List Int) :
    (x :: xs).maximum = some (xs.foldl max x) :=
  List.maximum_eq_coe_iff.mpr ⟨foldl_max_mem x xs, le_foldl_max x xs⟩

theorem nextId_eq (ms : List Member) :
    nextId ms = ((ms.map Member.id).maximum.unbot' 0) + 1 := by
  unfold nextId
  cases h : ms.map Member.id with
  | nil => simp
  | cons x xs => rw [maximum_eq_foldl x xs]; rfl

theorem nextId_not_mem (ms : List Member) : nextId ms ∉ ms.map Member.id := by
  intro hmem
  rcases h : ms.map Member.id with _ | ⟨x, xs⟩
  · rw [h] at hmem
    simp at hmem
  · have h2 : nextId ms = xs.foldl max x + 1 := by
      unfold nextId
      rw [h]
    rw [h, h2] at hmem
    have := le_foldl_max x xs _ hmem
    omega

/-- C10: editing never reorders the roster: the result has the same length,
the member at every index is the member that was there before — with name,
position and phone replaced and the attendance map kept when its id matches,
and entirely unchanged otherwise — and the whole roster is unchanged when no
member has the edited id. -/
theorem handleSaveMember_frame (d : EditData) (ms : List Member) :
    (handleSaveMember d ms).length = ms.length ∧
      (∀ i : Nat, (handleSaveMember d ms)[i]? =
        (ms[i]?).map fun m =>
          if m.id = d.id then
            { id := d.id, name := d.name, position := d.position, phone := d.phone,
              attendance := m.attendance }
          else m) ∧
      ((∀ m ∈ ms, m.id ≠ d.id) → handleSaveMember d ms = ms) := by
  refine ⟨by simp [handleSaveMember], ?_, ?_⟩
  · intro i
    unfold handleSaveMember
    rw [List.getElem?_map]
    cases hms : ms[i]? with
    | none => rfl
    | some m =>
      rw [Option.map_some', Option.map_some']
      by_cases h : m.id = d.id <;> simp [h]
  · intro hall
    unfold handleSaveMember
    induction ms with
    | nil => rfl
    | cons m rest ih =>
      have h1 : (m.id == d.id) = false := by
        have := hall m (by simp)
        simp [this]
      rw [List.map_cons]
      rw [ih (fun x hx => hall x (List.mem_cons_of_mem m hx))]
      simp [h1]

/-- C8: adding a member inserts exactly one new member whose id is
`max(existing ids, default 0) + 1` and whose attendance map is empty, and the
result is the old roster plus the new member sorted by the collation of names
(the operation is a total function: it never fails). -/
theorem handleAddMember_spec (le : String → String → Bool)
    (htrans : ∀ a b c, le a b = true → le b c = true → le a c = true)
    (htotal : ∀ a b, (le a b || le b a) = true)
    (data : AddData) (ms : List Member) :
    (handleAddMember le data ms).Perm (newMemberOf data ms :: ms) ∧
      (newMemberOf data ms).id = ((ms.map Member.id).maximum.unbot' 0) + 1 ∧
      (newMemberOf data ms).attendance = [] ∧
      List.Sorted (fun a b => le a.name b.name = true) (handleAddMember le data ms) := by
  refine ⟨?_, nextId_eq ms, rfl, ?_⟩
  · unfold handleAddMember sortByName
    exact (List.perm_insertionSort _ _).trans List.perm_append_comm
  · unfold handleAddMember sortByName
    haveI htr : IsTrans Member fun a b => le a.name b.name = true :=
      ⟨fun a b c hab hbc => htrans a.name b.name c.name hab hbc⟩
    haveI hto : IsTotal Member fun a b => le a.name b.name = true :=
      ⟨fun a b => by
        have := htotal a.name b.name
        rcases Bool.or_eq_true_iff.mp this with h1 | h1
        · exact Or.inl h1
        · exact Or.inr h1⟩
    exact List.sorted_insertionSort _ _

theorem strLeAux_total (xs : List Char) :
    ∀ ys, strLeAux xs ys = true ∨ strLeAux ys xs = true := by
  induction xs with
  | nil => intro ys; left; rfl
  | cons c cs ih =>
    intro ys
    cases ys with
    | nil => right; rfl
    | cons d ds =>
      rcases Nat.lt_trichotomy c.toNat d.toNat with h | h | h
      · left; simp [strLeAux, h]
      · rcases ih ds with h1 | h1
        · left; simp [strLeAux, h, h1]
        · right; simp [strLeAux, h.symm, h1]
      · right; simp [strLeAux, h]

theorem strLeAux_trans :
    ∀ xs ys zs : List Char, strLeAux xs ys = true → strLeAux ys zs = true →
      strLeAux xs zs = true := by
  intro xs
  induction xs with
  | nil => intro ys zs h1 h2; rfl
  | cons c cs ih =>
    intro ys zs h1 h2
    cases ys with
    | nil => simp [strLeAux] at h1
    | cons d ds =>
      cases zs with
      | nil => simp [strLeAux] at h2
      | cons e es =>
        rcases Nat.lt_trichotomy c.toNat d.toNat with hcd | hcd | hcd
        · rcases Nat.lt_trichotomy d.toNat e.toNat with hde | hde | hde
          · have hce : c.toNat < e.toNat := by omega
            simp [strLeAux, hce]
          · have hce : c.toNat < e.toNat := by omega
            simp [strLeAux, hce]
          · have hd1 : ¬ d.toNat < e.toNat := by omega
            simp [strLeAux, hd1, hde] at h2
        · rcases Nat.lt_trichotomy d.toNat e.toNat with hde | hde | hde
          · have hce : c.toNat < e.toNat := by omega
            simp [strLeAux, hce]
          · have hce : c.toNat = e.toNat := by omega
            simp only [strLeAux, hcd, lt_irrefl, if_false, if_neg (lt_irrefl d.toNat)] at h1
            simp only [strLeAux, hde, lt_irrefl, if_false, if_neg (lt_irrefl e.toNat)] at h2
            have h1' : strLeAux cs ds = true := by
              simpa [if_neg (by omega : ¬ c.toNat < d.toNat),
                if_neg (by omega : ¬ d.toNat < c.toNat)] using h1
            have h2' : strLeAux ds es = true := by
              simpa [if_neg (by omega : ¬ d.toNat < e.toNat),
                if_neg (by omega : ¬ e.toNat < d.toNat)] using h2
            have := ih ds es h1' h2'
            simp [strLeAux, if_neg (by omega : ¬ c.toNat < e.toNat),
              if_neg (by omega : ¬ e.toNat < c.toNat), this]
          · have hd1 : ¬ d.toNat < e.toNat := by omega
            simp [strLeAux, hd1, hde] at h2
        · have hc1 : ¬ c.toNat < d.toNat := by omega
          simp [strLeAux, hc1, hcd] at h1

theorem koLe_trans (a b c : String) (hab : koLe a b = true) (hbc : koLe b c = true) :
    koLe a c = true :=
  strLeAux_trans a.toList b.toList c.toList hab hbc

theorem koLe_total (a b : String) : (koLe a b || koLe b a) = true := by
  show (strLeAux a.toList b.toList || strLeAux b.toList a.toList) = true
  rcases strLeAux_total a.toList b.toList with h | h
  · rw [h]
    rfl
  · rw [h, Bool.or_true]

/-- Witness for C8: adding a third member to a concrete two-member roster with
the concrete collation `koLe`. -/
theorem handleAddMember_spec_witness :
    (handleAddMember koLe ⟨"다", "성도", "010-5555-6666"⟩ [sampleMember, sampleMember2]).Perm
        (newMemberOf ⟨"다", "성도", "010-5555-6666"⟩ [sampleMember, sampleMember2] ::
          [sampleMember, sampleMember2]) ∧
      (newMemberOf ⟨"다", "성도", "010-5555-6666"⟩ [sampleMember, sampleMember2]).id =
        (([sampleMember, sampleMember2].map Member.id).maximum.unbot' 0) + 1 ∧
      (newMemberOf ⟨"다", "성도", "010-5555-6666"⟩ [sampleMember, sampleMember2]).attendance = [] ∧
      List.Sorted (fun a b => koLe a.name b.name = true)
        (handleAddMember koLe ⟨"다", "성도", "010-5555-6666"⟩ [sampleMember, sampleMember2]) :=
  handleAddMember_spec koLe koLe_trans koLe_total
    ⟨"다", "성도", "010-5555-6666"⟩ [sampleMember, sampleMember2]

theorem getField_memberToJS_id (m : Member) :
    getField (memberToJS m) "id" = some (.num m.id) := rfl

theorem getField_memberToJS_name (m : Member) :
    getField (memberToJS m) "name" = some (.str m.name) := rfl

theorem getField_memberToJS_position (m : Member) :
    getField (memberToJS m) "position" = some (.str m.position) := rfl

theorem getField_memberToJS_phone (m : Member) :
    getField (memberToJS m) "phone" = some (.str m.phone) := rfl

theorem getField_memberToJS_attendance (m : Member) :
    getField (memberToJS m) "attendance" =
      some (.obj (m.attendance.map fun e => (e.1, .str (statusString e.2)))) := rfl

theorem checkEntries_toJS (nm : String) (att : List (String × AttendanceStatus))
    (h : ∀ e ∈ att, isDateString e.1 = true) :
    checkEntries nm (att.map fun e => (e.1, .str (statusString e.2))) = none := by
  induction att with
  | nil => rfl
  | cons e rest ih =>
    have hd : isDateString e.1 = true := h e (by simp)
    have hs : isStatusValue (.str (statusString e.2)) = true := by cases e.2 <;> rfl
    rw [List.map_cons]
    simp only [checkEntries, hd, hs, Bool.and_self, if_true]
    exact ih fun x hx => h x (by simp [hx])

theorem checkMember_toJS (m : Member) (h : ValidMember m) :
    checkMember (memberToJS m) = none := by
  obtain ⟨hpos, hdates, -⟩ := h
  have hobj : isObjectLike (memberToJS m) = true := rfl
  have hattobj :
      isObjectLike (.obj (m.attendance.map fun e => (e.1, .str (statusString e.2)))) = true := rfl
  have hcontains : POSITIONS.contains m.position = true := by simp [hpos]
  simp only [checkMember, hobj, Bool.not_true, Bool.false_eq_true, if_false,
    getField_memberToJS_id, getField_memberToJS_name, getField_memberToJS_position,
    getField_memberToJS_phone, getField_memberToJS_attendance, hcontains, hattobj, if_true]
  simp only [entriesOf]
  exact checkEntries_toJS m.name m.attendance hdates

theorem validateLoop_ok (i : Nat) (xs : List JSValue) (h : ∀ x ∈ xs, checkMember x = none) :
    validateLoop i xs = .ok xs := by
  induction xs generalizing i with
  | nil => rfl
  | cons x rest ih =>
    have hx : checkMember x = none := h x (by simp)
    simp only [validateLoop, hx]
    rw [ih (i + 1) fun y hy => h y (by simp [hy])]
    rfl

theorem statusOfString_statusString (s : AttendanceStatus) :
    statusOfString (statusString s) = some s := by cases s <;> rfl

theorem attendanceOfJS_toJS (att : List (String × AttendanceStatus)) :
    attendanceOfJS (.obj (att.map fun e => (e.1, .str (statusString e.2)))) = some att := by
  show attendanceEntriesOfJS (att.map fun e => (e.1, .str (statusString e.2))) = some att
  induction att with
  | nil => rfl
  | cons e rest ih =>
    rw [List.map_cons]
    show (match statusOfString (statusString e.2),
        attendanceEntriesOfJS (rest.map fun e => (e.1, .str (statusString e.2))) with
      | some st, some acc => some ((e.1, st) :: acc)
      | _, _ => none) = some (e :: rest)
    rw [statusOfString_statusString, ih]

theorem memberOfJS_toJS (m : Member) : memberOfJS (memberToJS m) = some m := by
  have h : memberOfJS (memberToJS m) =
      (attendanceOfJS (.obj (m.attendance.map fun e => (e.1, .str (statusString e.2))))).map
        fun a => ⟨m.id, m.name, m.position, m.phone, a⟩ := rfl
  rw [h, attendanceOfJS_toJS]
  rfl

theorem decodeMembers_toJS (S : List Member) :
    decodeMembers (S.map memberToJS) = some S := by
  induction S with
  | nil => rfl
  | cons m rest ih =>
    rw [List.map_cons]
    show (match memberOfJS (memberToJS m), decodeMembers (rest.map memberToJS) with
      | some x, some acc => some (x :: acc)
      | _, _ => none) = some (m :: rest)
    rw [memberOfJS_toJS, ih]

/-- C2: validating the serialization of any sequence of valid members succeeds
and returns the serialized sequence unchanged, and reading the raw elements
back as typed members recovers the original sequence. -/
theorem validate_serialize_roundTrip (S : List Member) (h : ∀ m ∈ S, ValidMember m) :
    validateImportedData (.arr (S.map memberToJS)) = .ok (S.map memberToJS) ∧
      decodeMembers (S.map memberToJS) = some S := by
  refine ⟨?_, decodeMembers_toJS S⟩
  show validateLoop 0 (S.map memberToJS) = .ok (S.map memberToJS)
  apply validateLoop_ok
  intro x hx
  obtain ⟨m, hm, rfl⟩ := List.mem_map.mp hx
  exact checkMember_toJS m (h m hm)

/-- Witness for C2 on a concrete one-member sequence. -/
theorem validate_serialize_roundTrip_witness :
    (∀ m ∈ [sampleMember], ValidMember m) ∧
      (validateImportedData (.arr ([sampleMember].map memberToJS)) =
          .ok ([sampleMember].map memberToJS) ∧
        decodeMembers ([sampleMember].map memberToJS) = some [sampleMember]) := by
  have hv : ∀ m ∈ [sampleMember], ValidMember m := by
    intro m hm
    simp only [List.mem_singleton] at hm
    subst hm
    exact ⟨by decide, by decide, by decide⟩
  exact ⟨hv, validate_serialize_roundTrip [sampleMember] hv⟩

theorem validateLoop_err (i k : Nat) (xs : List JSValue) (member : JSValue) (e : MemberError)
    (hmem : xs[k]? = some member)
    (hprev : ∀ j, j < k → ∀ x, xs[j]? = some x → checkMember x = none)
    (hbad : checkMember member = some e) :
    validateLoop i xs = .error (attachIdx (i + k + 1) e) := by
  induction xs generalizing i k with
  | nil => simp at hmem
  | cons x rest ih =>
    cases k with
    | zero =>
      simp only [List.getElem?_cons_zero, Option.some.injEq] at hmem
      subst hmem
      simp only [validateLoop, hbad]
    | succ k' =>
      have hx : checkMember x = none := hprev 0 (Nat.succ_pos k') x (by simp)
      simp only [validateLoop, hx]
      have hrec := ih (i + 1) k' (by simpa using hmem)
        fun j hj y hy => hprev (j + 1) (by omega) y (by simpa using hy)
      rw [hrec]
      have hidx : i + 1 + k' + 1 = i + (k' + 1) + 1 := by omega
      rw [hidx]
      rfl

theorem checkMember_badPosition (member : JSValue)
    (hobj : isObjectLike member = true)
    (hid : ∃ n, getField member "id" = some (.num n))
    (hname : ∃ s, getField member "name" = some (.str s))
    (hpos : ∀ p, getField member "position" = some (.str p) → POSITIONS.contains p = false) :
    checkMember member = some (.badPosition (getField member "position")) := by
  obtain ⟨n, hn⟩ := hid
  obtain ⟨s, hs⟩ := hname
  simp only [checkMember, hobj, Bool.not_true, Bool.false_eq_true, if_false, hn, hs]
  cases hp : getField member "position" with
  | none => simp only [hp]
  | some v =>
    cases v with
    | null => simp only [hp]
    | bool b => simp only [hp]
    | num x => simp only [hp]
    | str p => simp only [hp, hpos p hp, Bool.false_eq_true, if_false]
    | arr xs => simp only [hp]
    | obj fs => simp only [hp]

/-- C9: when every element before index `i` passes all per-element checks and
the element at `i` passes the object, id and name checks but its `position` is
not a string of the twelve-role enumeration, the validator fails with the
invalid-position error citing the 1-based index `i + 1` and the offending
`position` value. -/
theorem validate_invalidPosition (xs : List JSValue) (i : Nat) (member : JSValue)
    (hmem : xs[i]? = some member)
    (hprev : ∀ j, j < i → ∀ x, xs[j]? = some x → checkMember x = none)
    (hobj : isObjectLike member = true)
    (hid : ∃ n, getField member "id" = some (.num n))
    (hname : ∃ s, getField member "name" = some (.str s))
    (hpos : ∀ p, getField member "position" = some (.str p) → POSITIONS.contains p = false) :
    validateImportedData (.arr xs) =
      .error (.invalidPosition (i + 1) (getField member "position")) := by
  have h1 := checkMember_badPosition member hobj hid hname hpos
  have h2 := validateLoop_err 0 i xs member _ hmem hprev h1
  have h3 : (0 : Nat) + i + 1 = i + 1 := by omega
  rw [h3] at h2
  exact h2

/-- Witness for C9: the spec's own scenario, an unknown position string in the
first element, rejected with the 1-based index 1 and the offending value. -/
theorem validate_invalidPosition_witness :
    validateImportedData (.arr [badPosRaw]) =
      .error (.invalidPosition 1 (some (.str "알수없음"))) :=
  validate_invalidPosition [badPosRaw] 0 badPosRaw rfl
    (fun j hj => absurd hj (Nat.not_lt_zero j))
    rfl ⟨1, rfl⟩ ⟨"Lee", rfl⟩
    (fun p hp => by
      rw [show getField badPosRaw "position" = some (.str "알수없음") from rfl] at hp
      cases hp
      decide)

theorem handleSaveMember_map_id (d : EditData) (ms : List Member) :
    (handleSaveMember d ms).map Member.id = ms.map Member.id := by
  unfold handleSaveMember
  rw [List.map_map]
  apply List.map_congr_left
  intro m _
  by_cases hc : m.id = d.id
  · simp [Function.comp, hc]
  · simp [Function.comp, hc]

theorem handleAttendanceChange_map_id (aid : Int) (adate : String)
    (ast : Option AttendanceStatus) (ms : List Member) :
    (handleAttendanceChange aid adate ast ms).map Member.id = ms.map Member.id := by
  unfold handleAttendanceChange
  rw [List.map_map]
  apply List.map_congr_left
  intro m _
  by_cases hc : m.id = aid <;> simp [Function.comp, hc]

/-- C1 (amended): add, edit, delete and set-attendance preserve pairwise
distinct member ids, and bulk replace with a validator-accepted sequence
yields distinct ids provided the decoded members' ids are themselves pairwise
distinct — the validator itself does not check id uniqueness. -/
theorem roster_ids_nodup_preserved (le : String → String → Bool) (ms : List Member)
    (h : (ms.map Member.id).Nodup) (data : AddData) (d : EditData) (delId : Int)
    (aid : Int) (adate : String) (ast : Option AttendanceStatus)
    (raw : JSValue) (vs : List JSValue) (ws : List Member) :
    ((handleAddMember le data ms).map Member.id).Nodup ∧
      ((handleSaveMember d ms).map Member.id).Nodup ∧
      ((handleDeleteMember delId ms).map Member.id).Nodup ∧
      ((handleAttendanceChange aid adate ast ms).map Member.id).Nodup ∧
      (validateImportedData raw = .ok vs → decodeMembers vs = some ws →
        (ws.map Member.id).Nodup → ((sortByName le ws).map Member.id).Nodup) := by
  refine ⟨?_, ?_, ?_, ?_, ?_⟩
  · have hperm : ((handleAddMember le data ms).map Member.id).Perm
        ((newMemberOf data ms :: ms).map Member.id) :=
      List.Perm.map Member.id ((List.perm_insertionSort _ _).trans List.perm_append_comm)
    apply hperm.nodup_iff.mpr
    rw [List.map_cons]
    exact List.nodup_cons.mpr ⟨nextId_not_mem ms, h⟩
  · rw [handleSaveMember_map_id]
    exact h
  · exact List.Nodup.sublist ((List.filter_sublist ms).map Member.id) h
  · rw [handleAttendanceChange_map_id]
    exact h
  · intro _ _ hws
    have hperm : ((sortByName le ws).map Member.id).Perm (ws.map Member.id) :=
      List.Perm.map Member.id (List.perm_insertionSort _ _)
    exact hperm.nodup_iff.mpr hws

/-- Witness for C1 on a concrete two-member roster and a concrete import. -/
theorem roster_ids_nodup_preserved_witness :
    ([sampleMember, sampleMember2].map Member.id).Nodup ∧
      (((handleAddMember koLe ⟨"다", "전도사", "010"⟩ [sampleMember, sampleMember2]).map
          Member.id).Nodup ∧
        ((handleSaveMember ⟨1, "라", "권사", "011"⟩ [sampleMember, sampleMember2]).map
          Member.id).Nodup ∧
        ((handleDeleteMember 1 [sampleMember, sampleMember2]).map Member.id).Nodup ∧
        ((handleAttendanceChange 2 "2024-02-04" (some .present)
            [sampleMember, sampleMember2]).map Member.id).Nodup ∧
        (validateImportedData (.arr [memberToJS sampleMember]) = .ok [memberToJS sampleMember] →
          decodeMembers [memberToJS sampleMember] = some [sampleMember] →
          ([sampleMember].map Member.id).Nodup →
          ((sortByName koLe [sampleMember]).map Member.id).Nodup)) :=
  ⟨by decide,
    roster_ids_nodup_preserved koLe [sampleMember, sampleMember2] (by decide)
      ⟨"다", "전도사", "010"⟩ ⟨1, "라", "권사", "011"⟩ 1 2 "2024-02-04" (some .present)
      (.arr [memberToJS sampleMember]) [memberToJS sampleMember] [sampleMember]⟩

/-- Counterexample for C1 as stated: starting from the empty roster (whose ids
are trivially pairwise distinct), the validator accepts `dupIdRaw` — two
elements both carrying id 1 — and the bulk replace produces a roster whose ids
are not pairwise distinct. -/
theorem bulkReplace_duplicate_ids_counterexample :
    (([] : List Member).map Member.id).Nodup ∧
      validateImportedData dupIdRaw = .ok [dupA, dupB] ∧
      handleImportData koLe dupIdRaw =
        some [Member.mk 1 "가" "성도" "010-1111-2222" [],
              Member.mk 1 "나" "집사" "010-3333-4444" []] ∧
      ¬ (([Member.mk 1 "가" "성도" "010-1111-2222" [],
            Member.mk 1 "나" "집사" "010-3333-4444" []].map Member.id).Nodup) := by
  refine ⟨by decide, rfl, ?_, by decide⟩
  decide

theorem lookup_map_overwrite (k : String) (x : JSValue) (fs : List (String × JSValue))
    (hany : fs.any (fun e => e.1 == k) = true) :
    (fs.map fun e => if e.1 == k then (k, x) else e).lookup k = some x := by
  induction fs with
  | nil => simp at hany
  | cons e rest ih =>
    by_cases he : e.1 = k
    · rw [List.map_cons, if_pos (by simp [he])]
      simp only [List.lookup, beq_self_eq_true]
    · rw [List.any_cons] at hany
      have hrest : rest.any (fun e => e.1 == k) = true := by
        rcases Bool.or_eq_true_iff.mp hany with h1 | h1
        · exact absurd (by simpa using h1) he
        · exact h1
      rw [List.map_cons, if_neg (by simp [he])]
      have hke : (k == e.1) = false := beq_eq_false_iff_ne.mpr (Ne.symm he)
      simp only [List.lookup, hke]
      exact ih hrest

theorem lookup_append_self (k : String) (x : JSValue) (fs : List (String × JSValue))
    (hnone : fs.any (fun e => e.1 == k) = false) :
    (fs ++ [(k, x)]).lookup k = some x := by
  induction fs with
  | nil => simp only [List.nil_append, List.lookup, beq_self_eq_true]
  | cons e rest ih =>
    rw [List.any_cons] at hnone
    have he : (e.1 == k) = false := (Bool.or_eq_false_iff.mp hnone).1
    have hke : (k == e.1) = false :=
      beq_eq_false_iff_ne.mpr (Ne.symm (by simpa using he))
    rw [List.cons_append]
    simp only [List.lookup, hke]
    exact ih (Bool.or_eq_false_iff.mp hnone).2

theorem lookup_map_overwrite_other (k k' : String) (x : JSValue) (hne : k' ≠ k)
    (fs : List (String × JSValue)) :
    (fs.map fun e => if e.1 == k then (k, x) else e).lookup k' = fs.lookup k' := by
  induction fs with
  | nil => rfl
  | cons e rest ih =>
    by_cases he : e.1 = k
    · rw [List.map_cons, if_pos (by simp [he])]
      have h1 : (k' == k) = false := beq_eq_false_iff_ne.mpr hne
      have h2 : (k' == e.1) = false := by rw [he]; exact h1
      simp only [List.lookup, h1, h2]
      exact ih
    · rw [List.map_cons, if_neg (by simp [he])]
      by_cases hk' : k' = e.1
      · have h2 : (k' == e.1) = true := by simp [hk']
        simp only [List.lookup, h2]
      · have h2 : (k' == e.1) = false := beq_eq_false_iff_ne.mpr hk'
        simp only [List.lookup, h2]
        exact ih

theorem lookup_append_other (k k' : String) (x : JSValue) (hne : k' ≠ k)
    (fs : List (String × JSValue)) :
    (fs ++ [(k, x)]).lookup k' = fs.lookup k' := by
  induction fs with
  | nil =>
    have h1 : (k' == k) = false := beq_eq_false_iff_ne.mpr hne
    simp only [List.nil_append, List.lookup, h1]
  | cons e rest ih =>
    rw [List.cons_append]
    by_cases hk' : k' = e.1
    · have h2 : (k' == e.1) = true := by simp [hk']
      simp only [List.lookup, h2]
    · have h2 : (k' == e.1) = false := beq_eq_false_iff_ne.mpr hk'
      simp only [List.lookup, h2]
      exact ih

theorem setField_obj (fs : List (String × JSValue)) (k : String) (x : JSValue) :
    setField (.obj fs) k x =
      .obj (if fs.any (fun e => e.1 == k) then
              fs.map (fun e => if e.1 == k then (k, x) else e)
            else fs ++ [(k, x)]) := rfl

theorem getField_setField_self (fs : List (String × JSValue)) (k : String) (x : JSValue) :
    getField (setField (.obj fs) k x) k = some x := by
  rw [setField_obj]
  by_cases hany : fs.any (fun e => e.1 == k) = true
  · rw [if_pos hany]
    exact lookup_map_overwrite k x fs hany
  · rw [if_neg hany]
    exact lookup_append_self k x fs (Bool.eq_false_iff.mpr hany)

theorem getField_setField_other (fs : List (String × JSValue)) (k : String) (x : JSValue)
    (k' : String) (hne : k' ≠ k) :
    getField (setField (.obj fs) k x) k' = getField (.obj fs) k' := by
  rw [setField_obj]
  by_cases hany : fs.any (fun e => e.1 == k) = true
  · rw [if_pos hany]
    exact lookup_map_overwrite_other k k' x hne fs
  · rw [if_neg hany]
    exact lookup_append_other k k' x hne fs

theorem getField_removeField_self (v : JSValue) (k : String) :
    getField (removeField v k) k = none := by
  cases v with
  | obj fs =>
    show (fs.filter fun e => e.1 != k).lookup k = none
    induction fs with
    | nil => rfl
    | cons e rest ih =>
      by_cases he : e.1 = k
      · have hbne : (e.1 != k) = false := by simp [bne, he]
        simp only [List.filter_cons, hbne, Bool.false_eq_true, if_false]
        exact ih
      · have hbne : (e.1 != k) = true := by simp [bne, he]
        have hke : (k == e.1) = false := beq_eq_false_iff_ne.mpr (Ne.symm he)
        simp only [List.filter_cons, hbne, if_true, List.lookup, hke]
        exact ih
  | null => rfl
  | bool b => rfl
  | num n => rfl
  | str s => rfl
  | arr es => rfl

theorem getField_removeField_other (v : JSValue) (k k' : String) (hne : k' ≠ k) :
    getField (removeField v k) k' = getField v k' := by
  cases v with
  | obj fs =>
    show (fs.filter fun e => e.1 != k).lookup k' = fs.lookup k'
    induction fs with
    | nil => rfl
    | cons e rest ih =>
      by_cases he : e.1 = k
      · have hbne : (e.1 != k) = false := by simp [bne, he]
        have h2 : (k' == e.1) = false := by
          apply beq_eq_false_iff_ne.mpr
          rw [he]
          exact hne
        simp only [List.filter_cons, hbne, Bool.false_eq_true, if_false, List.lookup, h2]
        exact ih
      · have hbne : (e.1 != k) = true := by simp [bne, he]
        simp only [List.filter_cons, hbne, if_true]
        by_cases hk' : k' = e.1
        · have h2 : (k' == e.1) = true := by simp [hk']
          simp only [List.lookup, h2]
        · have h2 : (k' == e.1) = false := beq_eq_false_iff_ne.mpr hk'
          simp only [List.lookup, h2]
          exact ih
  | null => rfl
  | bool b => rfl
  | num n => rfl
  | str s => rfl
  | arr es => rfl

theorem migrateRecord_spec (today : String) (fields : List (String × JSValue)) :
    getField (migrateRecord today (.obj fields)) "status" = none ∧
      getField (migrateRecord today (.obj fields)) "attendance" =
        some (match getField (.obj fields) "status" with
          | some v => if truthy v then .obj [(today, v)] else .obj []
          | none => .obj []) ∧
      (∀ k, k ≠ "status" → k ≠ "attendance" →
        getField (migrateRecord today (.obj fields)) k = getField (.obj fields) k) := by
  refine ⟨getField_removeField_self _ "status", ?_, ?_⟩
  · unfold migrateRecord
    cases hs : getField (.obj fields) "status" with
    | none =>
      simp only [hs]
      rw [getField_removeField_other _ _ _ (by decide)]
      exact getField_setField_self fields "attendance" (.obj [])
    | some v =>
      simp only [hs]
      by_cases ht : truthy v = true
      · simp only [if_pos ht]
        rw [getField_removeField_other _ _ _ (by decide), setField_obj]
        exact getField_setField_self _ "attendance" _
      · simp only [if_neg ht]
        rw [getField_removeField_other _ _ _ (by decide)]
        exact getField_setField_self _ "attendance" _
  · intro k hks hka
    unfold migrateRecord
    cases hs : getField (.obj fields) "status" with
    | none =>
      simp only [hs]
      rw [getField_removeField_other _ _ _ hks]
      exact getField_setField_other _ _ _ _ hka
    | some v =>
      simp only [hs]
      by_cases ht : truthy v = true
      · simp only [if_pos ht]
        rw [getField_removeField_other _ _ _ hks, setField_obj,
          getField_setField_other _ _ _ _ hka]
        exact getField_setField_other _ _ _ _ hka
      · simp only [if_neg ht]
        rw [getField_removeField_other _ _ _ hks]
        exact getField_setField_other _ _ _ _ hka

/-- C3 (amended): the migration runs only when the first loaded record has a
`status` property; in that case every object record is rewritten — its
`status` property is dropped and its `attendance` becomes `{today: status}`
when its `status` is truthy and `{}` otherwise (any previous `attendance` is
discarded), all other properties unchanged; when the first record has no
`status` property, or the list is empty, no record is migrated. -/
theorem migrateMembers_spec (today : String) (parsed : List JSValue) :
    (parsed.head? = none → migrateMembers today parsed = parsed) ∧
      (∀ first, parsed.head? = some first → getField first "status" = none →
        migrateMembers today parsed = parsed) ∧
      (∀ first, parsed.head? = some first → (getField first "status").isSome = true →
        (migrateMembers today parsed).length = parsed.length ∧
          ∀ (i : Nat) (fields : List (String × JSValue)),
            parsed[i]? = some (JSValue.obj fields) →
              (migrateMembers today parsed)[i]? =
                  some (migrateRecord today (JSValue.obj fields)) ∧
                getField (migrateRecord today (JSValue.obj fields)) "status" = none ∧
                getField (migrateRecord today (JSValue.obj fields)) "attendance" =
                  some (match getField (JSValue.obj fields) "status" with
                    | some v => if truthy v then JSValue.obj [(today, v)] else JSValue.obj []
                    | none => JSValue.obj []) ∧
                (∀ k, k ≠ "status" → k ≠ "attendance" →
                  getField (migrateRecord today (JSValue.obj fields)) k =
                    getField (JSValue.obj fields) k)) := by
  refine ⟨?_, ?_, ?_⟩
  · intro h0
    unfold migrateMembers
    rw [h0]
  · intro first h1 h2
    unfold migrateMembers
    simp only [h1, h2, Option.isSome_none, Bool.false_eq_true, if_false]
  · intro first h1 h2
    have hmig : migrateMembers today parsed = parsed.map (migrateRecord today) := by
      unfold migrateMembers
      simp only [h1, if_pos h2]
    refine ⟨by rw [hmig, List.length_map], ?_⟩
    intro i fields hi
    rcases migrateRecord_spec today fields with ⟨hst, hat, hfr⟩
    refine ⟨?_, hst, hat, hfr⟩
    rw [hmig, List.getElem?_map, hi]
    rfl

/-- Counterexample for C3 as stated: the second loaded record exposes a scalar
`status` field instead of `attendance`, but because the first record has no
`status` field the loader migrates nothing — the record keeps its `status`
field and gains no `attendance` map. -/
theorem migrate_skips_later_status_counterexample :
    migrateMembers "2026-10-12" [legacyFirstNoStatus, legacySecondWithStatus] =
        [legacyFirstNoStatus, legacySecondWithStatus] ∧
      getField legacySecondWithStatus "status" = some (.str "출석") ∧
      getField legacySecondWithStatus "attendance" = none :=
  ⟨rfl, rfl, rfl⟩
